import Mathlib

/-!
Verification development for the DDOM reactive template-expression engine
and its supporting resolvers.

The template parser, expression evaluator, property-accessor resolver and
signal/watcher layer are modelled from the specification (their sources are
not part of this tree; only their tests and re-export declarations are).
`resolveConfig` (namespaces/index.ts) and the `@custom-media` resolution
functions (styleSheets/styleSheets.ts) are embedded from their sources.

JavaScript numbers are modelled as exact rationals extended with the IEEE
special values Infinity, -Infinity and NaN.  Every arithmetic case exercised
by the specification's examples is exactly representable, so exact rational
arithmetic coincides with IEEE double arithmetic on them.
-/

namespace DDOM

/-- An exact fraction: integer numerator over positive natural denominator.
(Used instead of Mathlib's `ℚ` so that every operation reduces inside the
kernel; fractions are not kept normalised — comparisons cross-multiply.) -/
structure Frac where
  num : ℤ
  den : ℕ
deriving DecidableEq

/-- Fuelled Euclidean gcd (the fuel `a + b + 1` always suffices). -/
def gcdAux : ℕ → ℕ → ℕ → ℕ
  | 0, a, _ => a
  | fuel + 1, a, b => if b = 0 then a else gcdAux fuel b (a % b)

/-- Greatest common divisor, kernel-reducible. -/
def natGcd (a b : ℕ) : ℕ := gcdAux (a + b + 1) a b

namespace Frac

/-- Embeds a natural number. -/
def ofNat (n : ℕ) : Frac := ⟨n, 1⟩

/-- Reduces a fraction to lowest terms. -/
def normalize (a : Frac) : Frac :=
  let g := natGcd a.num.natAbs a.den
  if g = 0 then a else ⟨a.num / (g : ℤ), a.den / g⟩

/-- Exact addition. -/
def add (a b : Frac) : Frac := ⟨a.num * b.den + b.num * a.den, a.den * b.den⟩

/-- Exact subtraction. -/
def sub (a b : Frac) : Frac := ⟨a.num * b.den - b.num * a.den, a.den * b.den⟩

/-- Exact multiplication. -/
def mul (a b : Frac) : Frac := ⟨a.num * b.num, a.den * b.den⟩

/-- Negation. -/
def negF (a : Frac) : Frac := ⟨-a.num, a.den⟩

/-- Exact division (callers ensure the divisor is nonzero). -/
def divF (a b : Frac) : Frac :=
  if 0 ≤ b.num then ⟨a.num * b.den, a.den * b.num.toNat⟩
  else ⟨-(a.num * b.den), a.den * (-b.num).toNat⟩

/-- Whether the fraction is zero. -/
def isZero (a : Frac) : Bool := a.num == 0

/-- Whether the fraction is (strictly) positive. -/
def pos (a : Frac) : Bool := 0 < a.num

/-- Whether the fraction is (strictly) negative. -/
def negb (a : Frac) : Bool := a.num < 0

/-- Value comparison by cross-multiplication. -/
def ltb (a b : Frac) : Bool := a.num * b.den < b.num * a.den

/-- Value equality by cross-multiplication. -/
def eqb (a b : Frac) : Bool := a.num * b.den == b.num * a.den

/-- Whether the fraction has absolute value less than one. -/
def absLtOne (a : Frac) : Bool := a.num.natAbs < a.den

/-- Whether the value is an integer. -/
def isInt (a : Frac) : Bool := a.normalize.den == 1

/-- Truncation toward zero. -/
def trunc (a : Frac) : ℤ :=
  if 0 ≤ a.num then ((a.num.toNat / a.den : ℕ) : ℤ)
  else -(((-a.num).toNat / a.den : ℕ) : ℤ)

/-- Integer power. -/
def zpowF (a : Frac) (e : ℤ) : Frac :=
  if 0 ≤ e then ⟨a.num ^ e.toNat, a.den ^ e.toNat⟩
  else divF ⟨1, 1⟩ ⟨a.num ^ (-e).toNat, a.den ^ (-e).toNat⟩

end Frac

/-- Decimal digits of `n / d` for `n < d`, with a fuel bound (every value
appearing in the spec has a short finite expansion). -/
def fracDigitsF : ℕ → ℕ → ℕ → List Char
  | 0, _, _ => []
  | fuel + 1, n, d =>
    if n = 0 then []
    else Nat.digitChar (n * 10 / d) :: fracDigitsF fuel (n * 10 % d) d

/-- Modelled from the spec: decimal rendering of a finite number — "numbers
render via standard decimal formatting (no trailing `.0` for integers)". -/
def Frac.render (a : Frac) : String :=
  let q := a.normalize
  if q.den = 1 then toString q.num
  else
    let sign := if q.num < 0 then "-" else ""
    let n := q.num.natAbs
    sign ++ toString (n / q.den) ++ "." ++ String.mk (fracDigitsF 32 (n % q.den) q.den)

/-- Modelled from the spec: a JavaScript runtime number — an exact rational
extended with the IEEE 754 special values (spec §4.4: "division by zero
yields signed Infinity/NaN per IEEE 754, not an error"). -/
inductive JSNum where
  | fin (q : Frac)
  | inf
  | negInf
  | nan
deriving DecidableEq

/-- Modelled from the spec: a runtime value of the expression evaluator
(spec §4.4: "a runtime value (number, string, boolean, null/undefined)"). -/
inductive JSVal where
  | num (n : JSNum)
  | str (s : String)
  | boolv (b : Bool)
  | null
  | undef
deriving DecidableEq

/-- Numeric addition on extended rationals. -/
def JSNum.add : JSNum → JSNum → JSNum
  | .nan, _ => .nan
  | _, .nan => .nan
  | .inf, .negInf => .nan
  | .negInf, .inf => .nan
  | .inf, _ => .inf
  | _, .inf => .inf
  | .negInf, _ => .negInf
  | _, .negInf => .negInf
  | .fin a, .fin b => .fin (a.add b)

/-- Numeric subtraction on extended rationals. -/
def JSNum.sub : JSNum → JSNum → JSNum
  | .nan, _ => .nan
  | _, .nan => .nan
  | .inf, .inf => .nan
  | .negInf, .negInf => .nan
  | .inf, _ => .inf
  | .negInf, _ => .negInf
  | _, .inf => .negInf
  | _, .negInf => .inf
  | .fin a, .fin b => .fin (a.sub b)

/-- Numeric multiplication on extended rationals (`0 * Infinity` is NaN). -/
def JSNum.mul : JSNum → JSNum → JSNum
  | .nan, _ => .nan
  | _, .nan => .nan
  | .fin a, .fin b => .fin (a.mul b)
  | .fin a, .inf => if a.isZero then .nan else if a.pos then .inf else .negInf
  | .fin a, .negInf => if a.isZero then .nan else if a.pos then .negInf else .inf
  | .inf, .fin b => if b.isZero then .nan else if b.pos then .inf else .negInf
  | .negInf, .fin b => if b.isZero then .nan else if b.pos then .negInf else .inf
  | .inf, .inf => .inf
  | .inf, .negInf => .negInf
  | .negInf, .inf => .negInf
  | .negInf, .negInf => .inf

/-- Numeric division; division by zero yields signed Infinity (or NaN for
`0 / 0`), per IEEE 754 as the spec requires.  Negative zero is not
distinguished in this model. -/
def JSNum.div : JSNum → JSNum → JSNum
  | .nan, _ => .nan
  | _, .nan => .nan
  | .fin a, .fin b =>
    if b.isZero then (if a.isZero then .nan else if a.pos then .inf else .negInf)
    else .fin (a.divF b)
  | .fin _, .inf => .fin (.ofNat 0)
  | .fin _, .negInf => .fin (.ofNat 0)
  | .inf, .fin b => if b.negb then .negInf else .inf
  | .negInf, .fin b => if b.negb then .inf else .negInf
  | _, _ => .nan

/-- JavaScript remainder: same sign as the dividend, `a - b * trunc (a / b)`. -/
def JSNum.mod : JSNum → JSNum → JSNum
  | .nan, _ => .nan
  | _, .nan => .nan
  | .fin a, .fin b =>
    if b.isZero then .nan
    else .fin (a.sub (b.mul ⟨(a.divF b).trunc, 1⟩))
  | .fin a, .inf => .fin a
  | .fin a, .negInf => .fin a
  | _, _ => .nan

/-- Exact `k`-th root of a natural number, when one exists. -/
def natRoot (k a : ℕ) : Option ℕ :=
  (List.range (a + 1)).find? (fun c => c ^ k == a)

/-- Exact `k`-th root of a nonnegative fraction, when one exists. -/
def ratRoot (k : ℕ) (q : Frac) : Option Frac :=
  if q.negb then none
  else
    let q1 := q.normalize
    match natRoot k q1.num.toNat, natRoot k q1.den with
    | some n, some d => some ⟨(n : ℤ), d⟩
    | _, _ => none

/-- Exponentiation.  `x ** 0` is `1` for every `x` (JavaScript's rule);
integer exponents are computed exactly; a fractional exponent takes the
exact rational root when it exists.  (The spec's examples only use exactly
representable powers; an inexact root is mapped to NaN, a documented
restriction of the rational model.) -/
def JSNum.pow : JSNum → JSNum → JSNum
  | a, .fin e =>
    if e.isZero then .fin (.ofNat 1)
    else
      match a with
      | .nan => .nan
      | .inf => if e.pos then .inf else .fin (.ofNat 0)
      | .negInf => if e.pos then .inf else .fin (.ofNat 0)
      | .fin q =>
        if q.isZero then (if e.pos then .fin (.ofNat 0) else .inf)
        else if e.isInt then .fin (q.zpowF e.trunc)
        else if q.negb then .nan
        else
          match ratRoot e.normalize.den q with
          | some r => .fin (r.zpowF e.normalize.num)
          | none => .nan
  | _, .nan => .nan
  | a, .inf =>
    match a with
    | .fin q =>
      if q.eqb ⟨1, 1⟩ ∨ q.eqb ⟨-1, 1⟩ then .nan
      else if q.absLtOne then .fin (.ofNat 0) else .inf
    | _ => .inf
  | a, .negInf =>
    match a with
    | .fin q =>
      if q.eqb ⟨1, 1⟩ ∨ q.eqb ⟨-1, 1⟩ then .nan
      else if q.absLtOne then .inf else .fin (.ofNat 0)
    | _ => .fin (.ofNat 0)

/-- Numeric strict order; every comparison with NaN is false. -/
def JSNum.lt : JSNum → JSNum → Bool
  | .nan, _ => false
  | _, .nan => false
  | .fin a, .fin b => a.ltb b
  | .negInf, .negInf => false
  | .negInf, _ => true
  | _, .negInf => false
  | .inf, _ => false
  | _, .inf => true

/-- Numeric equality; `NaN == NaN` is false. -/
def JSNum.eqb : JSNum → JSNum → Bool
  | .nan, _ => false
  | _, .nan => false
  | .fin a, .fin b => a.eqb b
  | .inf, .inf => true
  | .negInf, .negInf => true
  | _, _ => false

/-- Modelled from the spec: decimal rendering of a number for template
substitution — "numbers render via standard decimal formatting (no trailing
`.0` for integers), Infinity, -Infinity and NaN render as those literal
words". -/
def JSNum.render : JSNum → String
  | .nan => "NaN"
  | .inf => "Infinity"
  | .negInf => "-Infinity"
  | .fin q => q.render

/-- Value of a digit string. -/
def digitsVal (ds : List Char) : ℕ := ds.foldl (fun a c => a * 10 + c.toNat - 48) 0

/-- Lexes an unsigned decimal literal (digits with an optional fractional
part) from the front of the input, returning its exact rational value and
the remaining characters. -/
def numLex (cs : List Char) : Option (Frac × List Char) :=
  let ds := cs.takeWhile Char.isDigit
  let rest := cs.dropWhile Char.isDigit
  if ds.isEmpty then none
  else
    match rest with
    | '.' :: fs =>
      let fds := fs.takeWhile Char.isDigit
      if fds.isEmpty then some (.ofNat (digitsVal ds), rest)
      else
        some (⟨(digitsVal ds * 10 ^ fds.length + digitsVal fds : ℕ), 10 ^ fds.length⟩,
          fs.dropWhile Char.isDigit)
    | _ => some (.ofNat (digitsVal ds), rest)

/-- Parses a complete unsigned decimal literal. -/
def parseDecimal (cs : List Char) : Option Frac :=
  match numLex cs with
  | some (q, []) => some q
  | _ => none

/-- Modelled from the spec: `Number(string)` coercion — a numeric-looking
string yields its numeric value, anything else yields NaN (spec §4.4:
"non-numeric coercion failure propagates as NaN"). -/
def strToNum (s : String) : JSNum :=
  let cs := (s.data.dropWhile Char.isWhitespace).reverse.dropWhile Char.isWhitespace |>.reverse
  match cs with
  | [] => .fin (.ofNat 0)
  | '-' :: rest => match parseDecimal rest with
    | some q => .fin q.negF
    | none => .nan
  | _ =>
    if cs = "Infinity".data then .inf
    else match parseDecimal cs with
      | some q => .fin q
      | none => .nan

/-- Modelled from the spec: coercion of an evaluator value to a number for
the arithmetic operators `-`, `*`, `/`, `%`, `**`. -/
def JSVal.toNum : JSVal → JSNum
  | .num n => n
  | .str s => strToNum s
  | .boolv true => .fin (.ofNat 1)
  | .boolv false => .fin (.ofNat 0)
  | .null => .fin (.ofNat 0)
  | .undef => .nan

/-- Modelled from the spec: JavaScript `String(x)` stringification, used by
the `+` concatenation fallback ("stringifying non-string operands"). -/
def JSVal.toStr : JSVal → String
  | .num n => n.render
  | .str s => s
  | .boolv true => "true"
  | .boolv false => "false"
  | .null => "null"
  | .undef => "undefined"

/-- Modelled from the spec: stringification for template substitution —
identical to `toStr` except that "null/undefined render as empty string
inside templates". -/
def JSVal.toTemplateStr : JSVal → String
  | .null => ""
  | .undef => ""
  | v => v.toStr

/-- Modelled from the spec: standard truthiness — "0, \"\", null, undefined,
false are falsy" (NaN is also falsy in JavaScript). -/
def truthy : JSVal → Bool
  | .num (.fin q) => ¬ q.isZero
  | .num .nan => false
  | .num _ => true
  | .str s => ¬ s = ""
  | .boolv b => b
  | .null => false
  | .undef => false

/-- Modelled from the spec: a property-path segment — "segments: ordered
sequence of string|number" (spec §3). -/
inductive PathSeg where
  | field (name : String)
  | index (i : ℕ)
deriving DecidableEq

/-- Modelled from the spec: the binary operators of the expression grammar
(spec §4.3). -/
inductive BinOp where
  | add | sub | mul | div | mod | pow
  | eq | ne | lt | gt | le | ge
deriving DecidableEq

/-- Modelled from the spec: a parsed expression node — "a tagged variant —
Literal(value), PropertyPath(segments), BinaryOp(operator, left, right),
Ternary(condition, whenTrue, whenFalse)" (spec §3). -/
inductive Expr where
  | lit (v : JSVal)
  | path (segs : List PathSeg)
  | bin (op : BinOp) (l r : Expr)
  | ternary (c t f : Expr)
deriving DecidableEq

/-- Modelled from the spec: a binding-context value — plain values, nested
objects, arrays, and reactive cells (referenced by id into a signal store). -/
inductive CtxVal where
  | val (v : JSVal)
  | obj (fields : List (String × CtxVal))
  | arr (items : List CtxVal)
  | sig (id : ℕ)

/-- The signal store: current value of each reactive cell. -/
def Store := ℕ → CtxVal

/-- Updates one cell of a store. -/
def Store.update (st : Store) (i : ℕ) (w : CtxVal) : Store :=
  fun j => if j = i then w else st j

/-- One level of reactive-cell unwrapping: reading a signal yields its
current value and registers the read id as a dependency (spec §4.2: "if the
current value is a Signal/Computed, its .get() is implicitly invoked"). -/
def unwrap1 (v : CtxVal) (st : Store) : CtxVal × List ℕ :=
  match v with
  | .sig i => (st i, [i])
  | v => (v, [])

/-- The primitive value of a context value; non-primitive final results are
outside the evaluator's value domain and resolve to undefined (the spec's
examples only resolve to primitives). -/
def primOf : CtxVal → JSVal
  | .obj _ => .undef
  | .arr _ => .undef
  | .sig _ => .undef
  | .val v => v

/-- The child of a context value at one path segment: an object field by
key, an array item by index; anything else (including a null/undefined or
primitive value mid-path) has no child. -/
def segChild : CtxVal → PathSeg → Option CtxVal
  | .obj fields, .field k => fields.lookup k
  | .arr xs, .index i => xs.get? i
  | _, _ => none

/-- Modelled from the spec: the Property Accessor Resolver (spec §4.2).
Resolves path segments in order, unwrapping reactive cells, and "fails
soft" to undefined on a missing segment or on a null/undefined value
mid-path.  Returns the resolved value with the list of signal ids read. -/
def resolvePropertyAccessor : CtxVal → List PathSeg → Store → JSVal × List ℕ
  | v, [], st =>
    let (v1, d) := unwrap1 v st
    (primOf v1, d)
  | v, seg :: rest, st =>
    let (v1, d) := unwrap1 v st
    match segChild v1 seg with
    | some w =>
      let (r, d1) := resolvePropertyAccessor w rest st
      (r, d ++ d1)
    | none => (.undef, d)

/-- Modelled from the spec: the `+` rule (spec §4.4) — "if both operands are
numeric after resolution, perform numeric addition; otherwise perform string
concatenation (stringifying non-string operands)". -/
def applyAdd (a b : JSVal) : JSVal :=
  match a, b with
  | .num x, .num y => .num (x.add y)
  | _, _ => .str (a.toStr ++ b.toStr)

/-- Modelled from the spec: comparison/equality — "numeric comparison if
both sides are numeric; otherwise compare as coerced strings ...
numeric-looking strings compare numerically when used against numbers". -/
def applyCmp (op : BinOp) (a b : JSVal) : JSVal :=
  let numeric (x y : JSNum) : JSVal :=
    match op with
    | .eq => .boolv (x.eqb y)
    | .ne => .boolv (¬ x.eqb y)
    | .lt => .boolv (x.lt y)
    | .gt => .boolv (y.lt x)
    | .le => .boolv (x.lt y || x.eqb y)
    | _ => .boolv (y.lt x || x.eqb y)
  match a, b with
  | .num x, .num y => numeric x y
  | .num x, y => numeric x y.toNum
  | x, .num y => numeric x.toNum y
  | x, y =>
    let sx := x.toStr
    let sy := y.toStr
    match op with
    | .eq => .boolv (sx == sy)
    | .ne => .boolv (sx != sy)
    | .lt => .boolv (sx < sy)
    | .gt => .boolv (sy < sx)
    | .le => .boolv (sx ≤ sy)
    | _ => .boolv (sy ≤ sx)

/-- Modelled from the spec: evaluation of one binary operator application. -/
def applyBin (op : BinOp) (a b : JSVal) : JSVal :=
  match op with
  | .add => applyAdd a b
  | .sub => .num (a.toNum.sub b.toNum)
  | .mul => .num (a.toNum.mul b.toNum)
  | .div => .num (a.toNum.div b.toNum)
  | .mod => .num (a.toNum.mod b.toNum)
  | .pow => .num (a.toNum.pow b.toNum)
  | op => applyCmp op a b

/-- Modelled from the spec: the Expression Evaluator (spec §4.4), returning
the value together with the signal ids read (the tracked dependencies).
A ternary evaluates only the selected branch, so the untaken branch
contributes no dependencies. -/
def evaluateExpression : Expr → CtxVal → Store → JSVal × List ℕ
  | .lit v, _, _ => (v, [])
  | .path segs, ctx, st => resolvePropertyAccessor ctx segs st
  | .bin op l r, ctx, st =>
    let (a, da) := evaluateExpression l ctx st
    let (b, db) := evaluateExpression r ctx st
    (applyBin op a b, da ++ db)
  | .ternary c t f, ctx, st =>
    let (cv, dc) := evaluateExpression c ctx st
    if truthy cv then
      let (tv, dt) := evaluateExpression t ctx st
      (tv, dc ++ dt)
    else
      let (fv, df) := evaluateExpression f ctx st
      (fv, dc ++ df)

/-- Modelled from the spec: a token of the expression tokenizer (spec §4.3:
numeric, string, boolean and null/undefined literals, identifiers for
property paths, and the operator/punctuation symbols). -/
inductive Tok where
  | numTok (q : Frac)
  | strTok (s : String)
  | identTok (s : String)
  | symTok (s : String)
deriving DecidableEq

/-- First character of an identifier (or property-path segment). -/
def isIdentStart (c : Char) : Bool := c.isAlpha || c = '$' || c = '_'

/-- Subsequent character of an identifier. -/
def isIdentChar (c : Char) : Bool := c.isAlphanum || c = '$' || c = '_'

/-- Modelled from the spec: the expression tokenizer.  The fuel is the
input length; every step consumes at least one character, so the fuel never
runs out on the initial call. -/
def tokenize : ℕ → List Char → Option (List Tok)
  | 0, _ => none
  | fuel + 1, cs =>
    match cs with
    | [] => some []
    | c :: rest =>
      if c.isWhitespace then tokenize fuel rest
      else if c.isDigit then
        match numLex cs with
        | some (q, rest1) => (tokenize fuel rest1).map (Tok.numTok q :: ·)
        | none => none
      else if isIdentStart c then
        (tokenize fuel (cs.dropWhile isIdentChar)).map
          (Tok.identTok (String.mk (cs.takeWhile isIdentChar)) :: ·)
      else if c = '\'' ∨ c = '"' then
        match rest.dropWhile (fun d => ¬ d = c) with
        | _ :: rest1 =>
          (tokenize fuel rest1).map
            (Tok.strTok (String.mk (rest.takeWhile (fun d => ¬ d = c))) :: ·)
        | [] => none
      else
        match cs with
        | '*' :: '*' :: r => (tokenize fuel r).map (Tok.symTok "**" :: ·)
        | '=' :: '=' :: r => (tokenize fuel r).map (Tok.symTok "==" :: ·)
        | '!' :: '=' :: r => (tokenize fuel r).map (Tok.symTok "!=" :: ·)
        | '<' :: '=' :: r => (tokenize fuel r).map (Tok.symTok "<=" :: ·)
        | '>' :: '=' :: r => (tokenize fuel r).map (Tok.symTok ">=" :: ·)
        | d :: r =>
          if d ∈ ['+', '-', '*', '/', '%', '<', '>', '?', ':', '(', ')', '[', ']', '.'] then
            (tokenize fuel r).map (Tok.symTok (String.mk [d]) :: ·)
          else none
        | [] => some []

mutual

/-- Modelled from the spec: the ternary tier (lowest binding priority,
right-associative). -/
def parseTernaryLevel : ℕ → List Tok → Option (Expr × List Tok)
  | 0, _ => none
  | fuel + 1, toks => do
    let (c, r1) ← parseCmpLevel fuel toks
    match r1 with
    | Tok.symTok "?" :: r2 => do
      let (t, r3) ← parseTernaryLevel fuel r2
      match r3 with
      | Tok.symTok ":" :: r4 => do
        let (f, r5) ← parseTernaryLevel fuel r4
        pure (Expr.ternary c t f, r5)
      | _ => none
    | _ => pure (c, r1)

/-- Modelled from the spec: the equality/comparison tier. -/
def parseCmpLevel : ℕ → List Tok → Option (Expr × List Tok)
  | 0, _ => none
  | fuel + 1, toks => do
    let (l, r1) ← parseAddLevel fuel toks
    parseCmpLoop fuel l r1

/-- Left-to-right combination within the comparison tier. -/
def parseCmpLoop : ℕ → Expr → List Tok → Option (Expr × List Tok)
  | 0, _, _ => none
  | fuel + 1, acc, toks =>
    match toks with
    | Tok.symTok "==" :: r => do
      let (b, r2) ← parseAddLevel fuel r
      parseCmpLoop fuel (Expr.bin .eq acc b) r2
    | Tok.symTok "!=" :: r => do
      let (b, r2) ← parseAddLevel fuel r
      parseCmpLoop fuel (Expr.bin .ne acc b) r2
    | Tok.symTok "<=" :: r => do
      let (b, r2) ← parseAddLevel fuel r
      parseCmpLoop fuel (Expr.bin .le acc b) r2
    | Tok.symTok ">=" :: r => do
      let (b, r2) ← parseAddLevel fuel r
      parseCmpLoop fuel (Expr.bin .ge acc b) r2
    | Tok.symTok "<" :: r => do
      let (b, r2) ← parseAddLevel fuel r
      parseCmpLoop fuel (Expr.bin .lt acc b) r2
    | Tok.symTok ">" :: r => do
      let (b, r2) ← parseAddLevel fuel r
      parseCmpLoop fuel (Expr.bin .gt acc b) r2
    | _ => pure (acc, toks)

/-- Modelled from the spec: the additive tier. -/
def parseAddLevel : ℕ → List Tok → Option (Expr × List Tok)
  | 0, _ => none
  | fuel + 1, toks => do
    let (l, r1) ← parseMulLevel fuel toks
    parseAddLoop fuel l r1

/-- Left-to-right combination within the additive tier. -/
def parseAddLoop : ℕ → Expr → List Tok → Option (Expr × List Tok)
  | 0, _, _ => none
  | fuel + 1, acc, toks =>
    match toks with
    | Tok.symTok "+" :: r => do
      let (b, r2) ← parseMulLevel fuel r
      parseAddLoop fuel (Expr.bin .add acc b) r2
    | Tok.symTok "-" :: r => do
      let (b, r2) ← parseMulLevel fuel r
      parseAddLoop fuel (Expr.bin .sub acc b) r2
    | _ => pure (acc, toks)

/-- Modelled from the spec: the multiplicative tier. -/
def parseMulLevel : ℕ → List Tok → Option (Expr × List Tok)
  | 0, _ => none
  | fuel + 1, toks => do
    let (l, r1) ← parsePowLevel fuel toks
    parseMulLoop fuel l r1

/-- Left-to-right combination within the multiplicative tier. -/
def parseMulLoop : ℕ → Expr → List Tok → Option (Expr × List Tok)
  | 0, _, _ => none
  | fuel + 1, acc, toks =>
    match toks with
    | Tok.symTok "*" :: r => do
      let (b, r2) ← parsePowLevel fuel r
      parseMulLoop fuel (Expr.bin .mul acc b) r2
    | Tok.symTok "/" :: r => do
      let (b, r2) ← parsePowLevel fuel r
      parseMulLoop fuel (Expr.bin .div acc b) r2
    | Tok.symTok "%" :: r => do
      let (b, r2) ← parsePowLevel fuel r
      parseMulLoop fuel (Expr.bin .mod acc b) r2
    | _ => pure (acc, toks)

/-- Modelled from the spec: the exponentiation tier — same-tier operators
combine strictly left-to-right, so chained `**` is deliberately NOT
right-associative (spec §4.3). -/
def parsePowLevel : ℕ → List Tok → Option (Expr × List Tok)
  | 0, _ => none
  | fuel + 1, toks => do
    let (l, r1) ← parsePrimary fuel toks
    parsePowLoop fuel l r1

/-- Left-to-right combination within the exponentiation tier. -/
def parsePowLoop : ℕ → Expr → List Tok → Option (Expr × List Tok)
  | 0, _, _ => none
  | fuel + 1, acc, toks =>
    match toks with
    | Tok.symTok "**" :: r => do
      let (b, r2) ← parsePrimary fuel r
      parsePowLoop fuel (Expr.bin .pow acc b) r2
    | _ => pure (acc, toks)

/-- Modelled from the spec: primary expressions — literals, property paths
(a leading `this.` anchors at the binding context and is stripped), and
parenthesised expressions. -/
def parsePrimary : ℕ → List Tok → Option (Expr × List Tok)
  | 0, _ => none
  | fuel + 1, toks =>
    match toks with
    | Tok.numTok q :: r => pure (Expr.lit (.num (.fin q)), r)
    | Tok.strTok s :: r => pure (Expr.lit (.str s), r)
    | Tok.identTok "true" :: r => pure (Expr.lit (.boolv true), r)
    | Tok.identTok "false" :: r => pure (Expr.lit (.boolv false), r)
    | Tok.identTok "null" :: r => pure (Expr.lit .null, r)
    | Tok.identTok "undefined" :: r => pure (Expr.lit .undef, r)
    | Tok.identTok x :: r => do
      let (segs, r2) ← parsePathTail fuel [PathSeg.field x] r
      let segs1 := match segs with
        | PathSeg.field "this" :: ss => ss
        | ss => ss
      pure (Expr.path segs1, r2)
    | Tok.symTok "(" :: r => do
      let (e, r2) ← parseTernaryLevel fuel r
      match r2 with
      | Tok.symTok ")" :: r3 => pure (e, r3)
      | _ => none
    | _ => none

/-- Modelled from the spec: the dotted/bracketed tail of a property path
(spec §4.2: dot segments, numeric array indices, bracketed string keys). -/
def parsePathTail : ℕ → List PathSeg → List Tok → Option (List PathSeg × List Tok)
  | 0, _, _ => none
  | fuel + 1, segs, toks =>
    match toks with
    | Tok.symTok "." :: Tok.identTok x :: r =>
      parsePathTail fuel (segs ++ [PathSeg.field x]) r
    | Tok.symTok "[" :: Tok.numTok q :: Tok.symTok "]" :: r =>
      if q.isInt ∧ 0 ≤ q.num then
        parsePathTail fuel (segs ++ [PathSeg.index q.trunc.toNat]) r
      else none
    | Tok.symTok "[" :: Tok.strTok s :: Tok.symTok "]" :: r =>
      parsePathTail fuel (segs ++ [PathSeg.field s]) r
    | _ => pure (segs, toks)

end

/-- Modelled from the spec: parses one raw expression source string into a
parsed node (`TemplateSyntaxError` is modelled as `none`). -/
def parseExpression (cs : List Char) : Option Expr := do
  let toks ← tokenize (cs.length + 1) cs
  let (e, rest) ← parseTernaryLevel (8 * (toks.length + 1)) toks
  match rest with
  | [] => pure e
  | _ => none

/-- Modelled from the spec: a segment of a parsed template — literal text
interleaved with expression nodes (spec §3). -/
inductive Seg where
  | litSeg (text : String)
  | exprSeg (e : Expr)
deriving DecidableEq

/-- Splits the input at the first occurrence of a `${` marker; the second
component is `none` when the input has no such marker. -/
def splitAtDollarBrace : List Char → List Char × Option (List Char)
  | [] => ([], none)
  | [c] => ([c], none)
  | c :: d :: rest =>
    if c = '$' ∧ d = '{' then ([], some rest)
    else
      let p := splitAtDollarBrace (d :: rest)
      (c :: p.1, p.2)

/-- Whether a string contains a `${` region marker. -/
def hasDollarBrace (s : String) : Bool := (splitAtDollarBrace s.data).2.isSome

/-- Takes the raw source of one `${...}` region up to the matching `}`,
tracking nested brace depth (spec §4.3: "supporting nested braces inside
the expression"); `none` on unbalanced braces. -/
def takeExpr : ℕ → List Char → Option (List Char × List Char)
  | _, [] => none
  | 0, '}' :: rest => some ([], rest)
  | d + 1, '}' :: rest => (takeExpr d rest).map (fun p => ('}' :: p.1, p.2))
  | d, '{' :: rest => (takeExpr (d + 1) rest).map (fun p => ('{' :: p.1, p.2))
  | d, c :: rest => (takeExpr d rest).map (fun p => (c :: p.1, p.2))

/-- Modelled from the spec: the template scanner — alternating literal text
and parsed `${...}` expressions.  The fuel bounds the number of regions;
the input length always suffices since each region consumes characters. -/
def scanTemplateAux : ℕ → List Char → Option (List Seg)
  | 0, cs =>
    match splitAtDollarBrace cs with
    | (pre, none) => some [Seg.litSeg (String.mk pre)]
    | (_, some _) => none
  | fuel + 1, cs =>
    match splitAtDollarBrace cs with
    | (pre, none) => some [Seg.litSeg (String.mk pre)]
    | (pre, some rest) =>
      match takeExpr 0 rest with
      | none => none
      | some (src, rest1) =>
        match parseExpression src with
        | none => none
        | some e =>
          (scanTemplateAux fuel rest1).map
            (fun segs => Seg.litSeg (String.mk pre) :: Seg.exprSeg e :: segs)

/-- Modelled from the spec: `parseTemplateLiteral(source) -> ParsedTemplate`
(spec §6); `none` models a `TemplateSyntaxError`. -/
def parseTemplateLiteral (s : String) : Option (List Seg) :=
  scanTemplateAux s.data.length s.data

/-- Evaluates the segments of a parsed template, returning the substituted
string, the signal ids read (the tracked dependencies) and the number of
Evaluator invocations (one per expression segment). -/
def bindSegs : List Seg → CtxVal → Store → String × List ℕ × ℕ
  | [], _, _ => ("", [], 0)
  | .litSeg t :: rest, ctx, st =>
    let (s, d, n) := bindSegs rest ctx st
    (t ++ s, d, n)
  | .exprSeg e :: rest, ctx, st =>
    let (v, d) := evaluateExpression e ctx st
    let (s, d1, n) := bindSegs rest ctx st
    (v.toTemplateStr ++ s, d ++ d1, n + 1)

/-- Modelled from the spec: `bindTemplate(parsedTemplate, context)` — the
computed value of the bound template under the current signal store,
together with its tracked dependencies and evaluator-invocation count. -/
def bindTemplate (segs : List Seg) (ctx : CtxVal) (st : Store) : String × List ℕ × ℕ :=
  bindSegs segs ctx st

/-- Parses and binds a template source string in one step. -/
def renderTemplate (s : String) (ctx : CtxVal) (st : Store) : Option String :=
  (parseTemplateLiteral s).map (fun segs => (bindTemplate segs ctx st).1)

/-! ### Watcher scopes and disposal (spec §3, §4.1) -/

/-- Modelled from the spec: one effect/Computed registration, owned by a
watcher scope (`ComponentSignalWatcher`).  `deps` are the signal ids it
tracks, `active` whether the registration is still attached, and `runs`
counts its re-runs. -/
structure EffectReg where
  owner : ℕ
  deps : List ℕ
  active : Bool
  runs : ℕ
deriving DecidableEq

/-- Modelled from the spec: the registration state of the signal graph. -/
structure WatcherState where
  effects : List EffectReg
deriving DecidableEq

/-- Modelled from the spec: disposing a watcher scope "detaches every
effect and Computed created under it; no dangling subscriptions survive
disposal" — every registration owned by the scope becomes inactive. -/
def disposeScope (scope : ℕ) (s : WatcherState) : WatcherState :=
  ⟨s.effects.map (fun e => if e.owner = scope then { e with active := false } else e)⟩

/-- Modelled from the spec: propagation of one `Signal.set` — every
still-attached registration tracking the signal re-runs. -/
def stepSet (i : ℕ) (s : WatcherState) : WatcherState :=
  ⟨s.effects.map (fun e => if e.active = true ∧ i ∈ e.deps then { e with runs := e.runs + 1 } else e)⟩

/-- Runs a sequence of `Signal.set` events. -/
def runSets (evs : List ℕ) (s : WatcherState) : WatcherState :=
  evs.foldl (fun s i => stepSet i s) s

/-- The run-counts of the registrations owned by a scope (in order). -/
def scopeRuns (scope : ℕ) (s : WatcherState) : List ℕ :=
  (s.effects.filter (fun e => e.owner == scope)).map (fun e => e.runs)

/-! ### `resolveConfig` (src/lib/src/namespaces/index.ts) -/

/-- A runtime value seen by `resolveConfig`: primitives, record results and
signal-like objects (a `sigv` carries the value its `.get()` returns). -/
inductive RVal where
  | null
  | undef
  | boolv (b : Bool)
  | numv (q : Frac)
  | strv (s : String)
  | objv (fields : List (String × RVal))
  | sigv (v : RVal)

/-- JavaScript falsiness of a resolver value (the `!namespaceResult` check). -/
def RVal.falsy : RVal → Bool
  | .null => true
  | .undef => true
  | .boolv b => ¬ b
  | .numv q => q.isZero
  | .strv s => s == ""
  | _ => false

/-- One level of `.get()` unwrapping, as `resolveConfig` performs on values
that expose a callable `get`. -/
def RVal.unwrapGet : RVal → RVal
  | .sigv v => v
  | v => v

/-- Whether a value is `null` or `undefined`. -/
def RVal.isNullish : RVal → Bool
  | .null => true
  | .undef => true
  | _ => false

/-- A configuration value handed to `resolveConfig`: a non-object
primitive, an array (`Array.isArray` is true), or a plain object. -/
inductive CVal where
  | prim (v : RVal)
  | arr (items : List CVal)
  | obj (fields : List (String × CVal))

/-- The keys of `NAMESPACE_REGISTRY` (namespaces/index.ts). -/
def NAMESPACE_REGISTRY_KEYS : List String :=
  ["Array", "Set", "Map", "Int8Array", "Uint8Array", "Int16Array",
   "Uint16Array", "Int32Array", "Uint32Array", "Float32Array",
   "Float64Array", "Request", "FormData", "URLSearchParams", "URL",
   "Blob", "ArrayBuffer", "ReadableStream", "Cookie", "SessionStorage",
   "LocalStorage", "IndexedDB", "IDBRequest", "WebSocket"]

/-- The `value.prototype` of a plain object, when it is a truthy string
(only a string prototype can match a registry key). -/
def protoOf (fields : List (String × CVal)) : Option String :=
  match fields.lookup "prototype" with
  | some (.prim (.strv p)) => if p = "" then none else some p
  | _ => none

mutual

/-- Resolution of one property value by `resolveConfig` — the three-way
branch on namespace objects (`value.prototype && NAMESPACE_REGISTRY[...]`),
nested plain objects (recursion) and plain values (`processProperty`).
`pp` abstracts `processProperty` (absent from this tree; `none` models
`isValid: false`) and `pn` abstracts `processNamespacedProperty` (its
result is checked for falsiness, exactly as `!namespaceResult`). -/
def resolveConfigValue (pp : String → CVal → Option RVal) (pn : String → CVal → RVal)
    (k : String) : CVal → Option RVal
  | .obj fields =>
    match protoOf fields with
    | some p =>
      if p ∈ NAMESPACE_REGISTRY_KEYS then
        let r := pn k (.obj fields)
        if r.falsy then none else some r
      else (resolveConfig pp pn fields).map RVal.objv
    | none => (resolveConfig pp pn fields).map RVal.objv
  | v => pp k v

/-- `resolveConfig` (namespaces/index.ts): processes the keys in order;
each resolved value is `.get()`-unwrapped; a `null`/`undefined` result (or
a failed resolution) invalidates the whole configuration (`none` models
`{value: null, isValid: false}`), while explicit falsy values are kept. -/
def resolveConfig (pp : String → CVal → Option RVal) (pn : String → CVal → RVal) :
    List (String × CVal) → Option (List (String × RVal))
  | [] => some []
  | (k, v) :: rest =>
    match resolveConfigValue pp pn k v with
    | none => none
    | some r0 =>
      let r := r0.unwrapGet
      if r.isNullish then none
      else
        match resolveConfig pp pn rest with
        | none => none
        | some rest1 => some ((k, r) :: rest1)

end

/-- Whether one entry makes `resolveConfig` invalid: its resolution fails
outright, or its `.get()`-unwrapped resolved value is null/undefined. -/
def entryFails (pp : String → CVal → Option RVal) (pn : String → CVal → RVal)
    (k : String) (v : CVal) : Bool :=
  match resolveConfigValue pp pn k v with
  | none => true
  | some r => r.unwrapGet.isNullish

/-! ### `@custom-media` resolution (src/lib/src/styleSheets/styleSheets.ts) -/

/-- A character matched by `[\w-]` in the reference regex. -/
def isWordChar (c : Char) : Bool := c.isAlpha || c.isDigit || c = '_' || c = '-'

/-- Fuelled scanner for `(--name)` references (the regex `\(--[\w-]+\)`):
splits the input into verbatim chunks and reference names.  Each step
consumes at least one character, so fuel `length` always suffices. -/
def scanRefsF : ℕ → List Char → List (List Char ⊕ String)
  | 0, cs => [Sum.inl cs]
  | fuel + 1, cs =>
    match cs with
    | '(' :: '-' :: '-' :: rest =>
      let w := rest.takeWhile isWordChar
      match rest.dropWhile isWordChar with
      | ')' :: rest3 =>
        if w.isEmpty then Sum.inl ['('] :: scanRefsF fuel ('-' :: '-' :: rest)
        else Sum.inr (String.mk ('-' :: '-' :: w)) :: scanRefsF fuel rest3
      | _ => Sum.inl ['('] :: scanRefsF fuel ('-' :: '-' :: rest)
    | c :: rest => Sum.inl [c] :: scanRefsF fuel rest
    | [] => []

/-- Scanner for `(--name)` references with its always-sufficient fuel
(each step consumes at least one character). -/
def scanRefs (cs : List Char) : List (List Char ⊕ String) := scanRefsF (cs.length + 1) cs

/-- The number of registered custom-media names not yet in the resolving
set: an upper bound on the remaining recursion depth of
`resolveCustomMedia` (each recursion level adds one such name). -/
def keysLeft (m : List (String × String)) (resolving : List String) : ℕ :=
  ((m.map Prod.fst).filter (fun k => ! resolving.contains k)).length

/-- Fuelled core of `resolveCustomMedia` (styleSheets.ts): `null` becomes
`none`; a missing name or a name already being resolved (the circular
dependency guard) yields `none`; otherwise every nested `(--x)` reference
in the stored value is replaced — by `(resolved)` when resolution yields a
truthy string, by `not all` otherwise.  `keysLeft` fuel always suffices
(`resolveCMFuel_stable`), so the fuelled function computes the function
defined by the source's unbounded recursion. -/
def resolveCMFuel : ℕ → List (String × String) → List String → String → Option String
  | 0, _, _, _ => none
  | fuel + 1, m, resolving, name =>
    match m.lookup name with
    | none => none
    | some value =>
      if name ∈ resolving then none
      else
        some (String.mk (((scanRefs value.data).map (fun item =>
          match item with
          | .inl cs => cs
          | .inr nm =>
            match resolveCMFuel fuel m (name :: resolving) nm with
            | some r => if r = "" then ("not all").data else '(' :: (r.data ++ [')'])
            | none => ("not all").data)).flatten))

/-- `resolveCustomMedia` (styleSheets.ts) with the resolving set made an
explicit argument (the source threads it through a shared mutable set whose
content at any call is exactly the names on the current call stack). -/
def resolveCustomMedia (m : List (String × String)) (resolving : List String)
    (name : String) : Option String :=
  resolveCMFuel (keysLeft m resolving + 1) m resolving name

/-- `resolveMediaQuery` (styleSheets.ts): replaces every `(--name)`
reference in a media query — an unresolved name falls back to `not all`, a
definition resolved to `true`/`false` becomes `all`/`not all`, and any
other resolved value is re-wrapped in parentheses.  The resolving set is
cleared before each top-level resolution. -/
def resolveMediaQuery (m : List (String × String)) (q : String) : String :=
  String.mk (((scanRefs q.data).map (fun item =>
    match item with
    | .inl cs => cs
    | .inr nm =>
      match resolveCustomMedia m [] nm with
      | none => ("not all").data
      | some r =>
        if r = "true" then ("all").data
        else if r = "false" then ("not all").data
        else '(' :: (r.data ++ [')']))).flatten)

/-! ### Concrete contexts and stores used by the theorems -/

/-- Whether an evaluator value is numeric. -/
def JSVal.isNumeric : JSVal → Bool
  | .num _ => true
  | _ => false

/-- A store with no populated signals. -/
def emptyStore : Store := fun _ => CtxVal.val JSVal.undef

/-- The context `{$a: 5, $b: 3}` with both properties as signals. -/
def ctxNumAB : CtxVal := CtxVal.obj [("$a", CtxVal.sig 0), ("$b", CtxVal.sig 1)]

/-- The signal store backing `ctxNumAB`. -/
def storeNumAB : Store := fun i =>
  if i = 0 then CtxVal.val (JSVal.num (JSNum.fin (Frac.ofNat 5)))
  else CtxVal.val (JSVal.num (JSNum.fin (Frac.ofNat 3)))

/-- The context `{$str1: 'Hello', $str2: 'World'}`. -/
def ctxStr : CtxVal :=
  CtxVal.obj [("$str1", CtxVal.val (JSVal.str "Hello")),
    ("$str2", CtxVal.val (JSVal.str "World"))]

/-- A sample `processProperty`: plain values resolve to themselves. -/
def ppSample : String → CVal → Option RVal := fun _ v =>
  match v with
  | .prim x => some x
  | _ => none

/-- A sample namespace handler returning a signal-like object. -/
def pnSample : String → CVal → RVal := fun _ _ => RVal.sigv (RVal.strv "ns")

/-- A sample watcher state: one effect owned by scope 0 tracking signal 1. -/
def sampleWatcher : WatcherState := ⟨[⟨0, [1], true, 0⟩]⟩

/-- A ternary context: `$cond`, `$x`, `$y` as signals 0, 1, 2. -/
def ctxTern : CtxVal :=
  CtxVal.obj [("$cond", CtxVal.sig 0), ("$x", CtxVal.sig 1), ("$y", CtxVal.sig 2)]

/-- The signal store backing `ctxTern`: a truthy condition. -/
def storeTern : Store := fun i =>
  if i = 0 then CtxVal.val (JSVal.num (JSNum.fin (Frac.ofNat 1)))
  else if i = 1 then CtxVal.val (JSVal.str "A")
  else CtxVal.val (JSVal.str "B")

/-- The ternary expression `this.$cond ? this.$x : this.$y`. -/
def ternSample : Expr :=
  .ternary (.path [.field "$cond"]) (.path [.field "$x"]) (.path [.field "$y"])

/-! ### Theorems -/

/-- C1: every evaluation of a BinaryOp `+` node performs numeric addition
when both resolved operands are numeric and otherwise string-concatenates
the stringified operands; the dispatch depends only on the resolved operand
types.  With context `{$a: 5, $b: 3}` the template `$\x7bthis.$a + this.$b\x7d`
renders "8" (numeric path); with `{$str1: 'Hello', $str2: 'World'}` the
template `$\x7bthis.$str1 + this.$str2\x7d` renders "HelloWorld" (string path). -/
theorem claim1_add_dispatch :
    (∀ (l r : Expr) (ctx : CtxVal) (st : Store),
      evaluateExpression (.bin .add l r) ctx st =
        (applyAdd (evaluateExpression l ctx st).1 (evaluateExpression r ctx st).1,
          (evaluateExpression l ctx st).2 ++ (evaluateExpression r ctx st).2)) ∧
    (∀ (a b : JSNum), applyAdd (.num a) (.num b) = .num (a.add b)) ∧
    (∀ (a b : JSVal), (a.isNumeric && b.isNumeric) = false →
      applyAdd a b = .str (a.toStr ++ b.toStr)) ∧
    renderTemplate "$\x7bthis.$a + this.$b\x7d" ctxNumAB storeNumAB = some "8" ∧
    renderTemplate "$\x7bthis.$str1 + this.$str2\x7d" ctxStr emptyStore = some "HelloWorld" := by
  refine ⟨fun l r ctx st => rfl, fun a b => rfl, ?_, by decide, by decide⟩
  intro a b h
  cases a <;> cases b <;> first
    | rfl
    | simp [JSVal.isNumeric] at h

/-- C1 witness: the string path of the `+` dispatch at a concrete input. -/
theorem claim1_add_dispatch_witness :
    ((JSVal.str "Hello").isNumeric && (JSVal.str "World").isNumeric) = false ∧
    applyAdd (JSVal.str "Hello") (JSVal.str "World") = .str "HelloWorld" :=
  ⟨by decide, claim1_add_dispatch.2.2.1 (JSVal.str "Hello") (JSVal.str "World") (by decide)⟩

/-- C2: `$\x7b2 + 3 * 4\x7d` renders "14" and `$\x7b10 - 2 * 3\x7d` renders "4";
the parser applies the tier ordering ternary < equality/comparison <
additive < multiplicative < exponentiation, and combines operators strictly
left-to-right within one tier — in particular chained `**` associates to
the left (`2 ** 3 ** 2` is `(2 ** 3) ** 2 = 64`, not `512`). -/
theorem claim2_precedence_tiers :
    renderTemplate "$\x7b2 + 3 * 4\x7d" (CtxVal.obj []) emptyStore = some "14" ∧
    renderTemplate "$\x7b10 - 2 * 3\x7d" (CtxVal.obj []) emptyStore = some "4" ∧
    parseExpression ("2 + 3 * 4").data =
      some (.bin .add (.lit (.num (.fin (.ofNat 2))))
        (.bin .mul (.lit (.num (.fin (.ofNat 3)))) (.lit (.num (.fin (.ofNat 4)))))) ∧
    parseExpression ("10 - 2 * 3").data =
      some (.bin .sub (.lit (.num (.fin (.ofNat 10))))
        (.bin .mul (.lit (.num (.fin (.ofNat 2)))) (.lit (.num (.fin (.ofNat 3)))))) ∧
    parseExpression ("1 + 2 == 3 ? 10 : 20").data =
      some (.ternary
        (.bin .eq (.bin .add (.lit (.num (.fin (.ofNat 1)))) (.lit (.num (.fin (.ofNat 2)))))
          (.lit (.num (.fin (.ofNat 3)))))
        (.lit (.num (.fin (.ofNat 10)))) (.lit (.num (.fin (.ofNat 20))))) ∧
    parseExpression ("2 ** 3 ** 2").data =
      some (.bin .pow
        (.bin .pow (.lit (.num (.fin (.ofNat 2)))) (.lit (.num (.fin (.ofNat 3)))))
        (.lit (.num (.fin (.ofNat 2))))) ∧
    renderTemplate "$\x7b2 ** 3 ** 2\x7d" (CtxVal.obj []) emptyStore = some "64" := by
  exact ⟨by decide, by decide, by decide, by decide, by decide, by decide, by decide⟩

/-- C3: `$\x7b2 ** 3\x7d` renders "8", `$\x7b4 ** 0.5\x7d` renders "2" and
`$\x7b5 ** 0\x7d` renders "1"; numbers render with standard decimal
formatting — an integer-valued result prints with no trailing ".0",
fractional values print decimally, and the special values print as
Infinity, -Infinity and NaN. -/
theorem claim3_exponentiation_stringify :
    renderTemplate "$\x7b2 ** 3\x7d" (CtxVal.obj []) emptyStore = some "8" ∧
    renderTemplate "$\x7b4 ** 0.5\x7d" (CtxVal.obj []) emptyStore = some "2" ∧
    renderTemplate "$\x7b5 ** 0\x7d" (CtxVal.obj []) emptyStore = some "1" ∧
    (∀ i : ℤ, (JSNum.fin ⟨i, 1⟩).render = toString i) ∧
    (JSNum.fin ⟨1, 2⟩).render = "0.5" ∧
    JSNum.inf.render = "Infinity" ∧
    JSNum.negInf.render = "-Infinity" ∧
    JSNum.nan.render = "NaN" := by
  refine ⟨by decide, by decide, by decide, ?_, by decide, rfl, rfl, rfl⟩
  intro i
  simp [JSNum.render, Frac.render, Frac.normalize, natGcd, gcdAux, Nat.mod_one,
    Nat.div_one, Int.ediv_one]

/-- C4: division by zero in a template never raises — `$\x7b5 / 0\x7d`
renders "Infinity" and `$\x7b0 ** 2\x7d` renders "0"; the arithmetic
operators always return a numeric value (coercing both operands), and a
failed numeric coercion propagates as NaN, which poisons the arithmetic
rather than throwing. -/
theorem claim4_division_never_raises :
    renderTemplate "$\x7b5 / 0\x7d" (CtxVal.obj []) emptyStore = some "Infinity" ∧
    renderTemplate "$\x7b0 ** 2\x7d" (CtxVal.obj []) emptyStore = some "0" ∧
    (∀ a b : JSVal, applyBin .div a b = .num (a.toNum.div b.toNum)) ∧
    JSVal.undef.toNum = .nan ∧
    (JSVal.str "abc").toNum = .nan ∧
    (∀ w : JSNum, JSNum.nan.div w = .nan ∧ JSNum.nan.mul w = .nan ∧
      JSNum.nan.sub w = .nan ∧ JSNum.nan.add w = .nan) := by
  refine ⟨by decide, by decide, fun a b => rfl, by decide, by decide, ?_⟩
  intro w
  cases w <;> exact ⟨rfl, rfl, rfl, rfl⟩

/-- If the input has no `$\x7b` marker, the split returns it whole. -/
theorem splitAtDollarBrace_snd_none :
    ∀ cs : List Char, (splitAtDollarBrace cs).2 = none → (splitAtDollarBrace cs).1 = cs := by
  intro cs
  induction cs with
  | nil => intro _; rfl
  | cons c tail ih =>
    cases tail with
    | nil => intro _; rfl
    | cons d rest =>
      intro h
      by_cases hp : c = '$' ∧ d = '{'
      · simp [splitAtDollarBrace, hp] at h
      · simp only [splitAtDollarBrace, if_neg hp] at h ⊢
        rw [ih h]

/-- The template scanner yields a single literal segment on any input
without a `$\x7b` marker, for every fuel. -/
theorem scanTemplateAux_no_region (fuel : ℕ) (cs : List Char)
    (h : (splitAtDollarBrace cs).2 = none) :
    scanTemplateAux fuel cs = some [Seg.litSeg (String.mk cs)] := by
  have hfst := splitAtDollarBrace_snd_none cs h
  have h1 : splitAtDollarBrace cs = (cs, none) := by
    cases hs : splitAtDollarBrace cs with
    | mk a b =>
      rw [hs] at hfst h
      simp only at hfst h
      rw [hfst, h]
  cases fuel <;> simp [scanTemplateAux, h1]

/-- C5: a template string with no `$\x7b...\x7d` region parses to a single
Literal segment, and binding it yields the source string verbatim with the
empty dependency set and zero Evaluator invocations. -/
theorem claim5_no_region_constant (s : String) (ctx : CtxVal) (st : Store)
    (h : hasDollarBrace s = false) :
    parseTemplateLiteral s = some [Seg.litSeg s] ∧
    bindTemplate [Seg.litSeg s] ctx st = (s, [], 0) := by
  have h2 : (splitAtDollarBrace s.data).2 = none := by
    unfold hasDollarBrace at h
    cases hs : (splitAtDollarBrace s.data).2 with
    | none => rfl
    | some r => rw [hs] at h; simp at h
  refine ⟨?_, ?_⟩
  · unfold parseTemplateLiteral
    rw [scanTemplateAux_no_region _ _ h2]
  · show (s ++ "", [], 0) = (s, [], 0)
    rw [String.append_empty]

/-- C5 witness: the no-region guarantee at the concrete source "plain text". -/
theorem claim5_no_region_constant_witness :
    hasDollarBrace "plain text" = false ∧
    (parseTemplateLiteral "plain text" = some [Seg.litSeg "plain text"] ∧
      bindTemplate [Seg.litSeg "plain text"] (CtxVal.obj []) emptyStore = ("plain text", [], 0)) :=
  ⟨by decide, claim5_no_region_constant "plain text" (CtxVal.obj []) emptyStore (by decide)⟩

/-- C6: the Property Accessor Resolver fails soft — a null/undefined value
or a missing key/index mid-path resolves the whole path to undefined with
no exception (the resolver is a total function), and the failure is
absorbed into the bound template's computed text. -/
theorem claim6_soft_undefined :
    (∀ (seg : PathSeg) (rest : List PathSeg) (st : Store),
      resolvePropertyAccessor (.val .null) (seg :: rest) st = (.undef, []) ∧
      resolvePropertyAccessor (.val .undef) (seg :: rest) st = (.undef, [])) ∧
    (∀ (fields : List (String × CtxVal)) (k : String) (rest : List PathSeg) (st : Store),
      fields.lookup k = none →
      resolvePropertyAccessor (.obj fields) (.field k :: rest) st = (.undef, [])) ∧
    (∀ (xs : List CtxVal) (i : ℕ) (rest : List PathSeg) (st : Store),
      xs.get? i = none →
      resolvePropertyAccessor (.arr xs) (.index i :: rest) st = (.undef, [])) ∧
    renderTemplate "x=$\x7bthis.$missing\x7d" (CtxVal.obj []) emptyStore = some "x=" ∧
    (∀ (segs : List Seg) (ctx : CtxVal) (st : Store),
      ∃ out : String × List ℕ × ℕ, bindTemplate segs ctx st = out) := by
  refine ⟨?_, ?_, ?_, by decide, fun segs ctx st => ⟨_, rfl⟩⟩
  · intro seg rest st
    exact ⟨by cases seg <;> rfl, by cases seg <;> rfl⟩
  · intro fields k rest st h
    simp [resolvePropertyAccessor, unwrap1, segChild, h]
  · intro xs i rest st h
    rw [List.get?_eq_getElem?] at h
    simp [resolvePropertyAccessor, unwrap1, segChild, h]

/-- C6 witness: a missing key on an empty context resolves to undefined. -/
theorem claim6_soft_undefined_witness :
    ([] : List (String × CtxVal)).lookup "$x" = none ∧
    resolvePropertyAccessor (.obj []) [PathSeg.field "$x"] emptyStore = (.undef, []) :=
  ⟨rfl, claim6_soft_undefined.2.1 [] "$x" [] emptyStore rfl⟩

/-- Unwrapping reads the store only at the reported dependency. -/
theorem unwrap1_update (v : CtxVal) (st : Store) (i : ℕ) (w : CtxVal)
    (h : i ∉ (unwrap1 v st).2) :
    unwrap1 v (st.update i w) = unwrap1 v st := by
  cases v with
  | sig j =>
    have hj : ¬ j = i := by
      intro e
      subst e
      simp [unwrap1] at h
    simp [unwrap1, Store.update, hj]
  | val x => rfl
  | obj fields => rfl
  | arr xs => rfl

/-- Evaluation of a ternary with a truthy condition, in projection form. -/
theorem ternary_true (c t f : Expr) (ctx : CtxVal) (st : Store)
    (h : truthy (evaluateExpression c ctx st).1 = true) :
    evaluateExpression (.ternary c t f) ctx st =
      ((evaluateExpression t ctx st).1,
        (evaluateExpression c ctx st).2 ++ (evaluateExpression t ctx st).2) := by
  have he : evaluateExpression (.ternary c t f) ctx st =
      if truthy (evaluateExpression c ctx st).1 then
        ((evaluateExpression t ctx st).1,
          (evaluateExpression c ctx st).2 ++ (evaluateExpression t ctx st).2)
      else
        ((evaluateExpression f ctx st).1,
          (evaluateExpression c ctx st).2 ++ (evaluateExpression f ctx st).2) := rfl
  rw [he, h]
  rfl

/-- Evaluation of a ternary with a falsy condition, in projection form. -/
theorem ternary_false (c t f : Expr) (ctx : CtxVal) (st : Store)
    (h : truthy (evaluateExpression c ctx st).1 = false) :
    evaluateExpression (.ternary c t f) ctx st =
      ((evaluateExpression f ctx st).1,
        (evaluateExpression c ctx st).2 ++ (evaluateExpression f ctx st).2) := by
  have he : evaluateExpression (.ternary c t f) ctx st =
      if truthy (evaluateExpression c ctx st).1 then
        ((evaluateExpression t ctx st).1,
          (evaluateExpression c ctx st).2 ++ (evaluateExpression t ctx st).2)
      else
        ((evaluateExpression f ctx st).1,
          (evaluateExpression c ctx st).2 ++ (evaluateExpression f ctx st).2) := rfl
  rw [he, h]
  rfl

/-- The resolver reads the store only at its reported dependencies:
updating any signal outside them leaves the resolution unchanged. -/
theorem resolve_stable :
    ∀ (segs : List PathSeg) (v : CtxVal) (st : Store) (i : ℕ) (w : CtxVal),
      i ∉ (resolvePropertyAccessor v segs st).2 →
      resolvePropertyAccessor v segs (st.update i w) = resolvePropertyAccessor v segs st := by
  intro segs
  induction segs with
  | nil =>
    intro v st i w h
    have hnil : ∀ st' : Store, resolvePropertyAccessor v [] st' =
        (primOf (unwrap1 v st').1, (unwrap1 v st').2) := fun _ => rfl
    rw [hnil] at h
    have hd : i ∉ (unwrap1 v st).2 := h
    rw [hnil, hnil, unwrap1_update v st i w hd]
  | cons seg rest ih =>
    intro v st i w h
    have hcons : ∀ st' : Store, resolvePropertyAccessor v (seg :: rest) st' =
        match segChild (unwrap1 v st').1 seg with
        | some w1 => ((resolvePropertyAccessor w1 rest st').1,
            (unwrap1 v st').2 ++ (resolvePropertyAccessor w1 rest st').2)
        | none => (.undef, (unwrap1 v st').2) := fun _ => rfl
    have hsome : ∀ (st' : Store) (w1 : CtxVal), segChild (unwrap1 v st').1 seg = some w1 →
        resolvePropertyAccessor v (seg :: rest) st' =
          ((resolvePropertyAccessor w1 rest st').1,
            (unwrap1 v st').2 ++ (resolvePropertyAccessor w1 rest st').2) := by
      intro st' w1 hc1
      rw [hcons st', hc1]
    have hnone : ∀ st' : Store, segChild (unwrap1 v st').1 seg = none →
        resolvePropertyAccessor v (seg :: rest) st' = (.undef, (unwrap1 v st').2) := by
      intro st' hc1
      rw [hcons st', hc1]
    cases hc : segChild (unwrap1 v st).1 seg with
    | none =>
      rw [hnone st hc] at h
      have hd : i ∉ (unwrap1 v st).2 := h
      have hu := unwrap1_update v st i w hd
      have hcU : segChild (unwrap1 v (st.update i w)).1 seg = none := by
        rw [hu]; exact hc
      rw [hnone _ hcU, hnone st hc, hu]
    | some w1 =>
      rw [hsome st w1 hc] at h
      have h2 : i ∉ (unwrap1 v st).2 ++ (resolvePropertyAccessor w1 rest st).2 := h
      simp only [List.mem_append] at h2
      push_neg at h2
      have hu := unwrap1_update v st i w h2.1
      have hcU : segChild (unwrap1 v (st.update i w)).1 seg = some w1 := by
        rw [hu]; exact hc
      rw [hsome _ w1 hcU, hsome st w1 hc, hu, ih w1 st i w h2.2]

/-- The evaluator reads the store only at its tracked dependencies:
updating any signal outside them leaves the evaluation unchanged. -/
theorem eval_stable :
    ∀ (e : Expr) (ctx : CtxVal) (st : Store) (i : ℕ) (w : CtxVal),
      i ∉ (evaluateExpression e ctx st).2 →
      evaluateExpression e ctx (st.update i w) = evaluateExpression e ctx st := by
  intro e
  induction e with
  | lit v => intro ctx st i w _; rfl
  | path segs => intro ctx st i w h; exact resolve_stable segs ctx st i w h
  | bin op l r ihl ihr =>
    intro ctx st i w h
    have hbin : ∀ st' : Store, evaluateExpression (.bin op l r) ctx st' =
        (applyBin op (evaluateExpression l ctx st').1 (evaluateExpression r ctx st').1,
          (evaluateExpression l ctx st').2 ++ (evaluateExpression r ctx st').2) :=
      fun _ => rfl
    rw [hbin] at h
    have h2 : i ∉ (evaluateExpression l ctx st).2 ++ (evaluateExpression r ctx st).2 := h
    simp only [List.mem_append] at h2
    push_neg at h2
    rw [hbin, hbin, ihl ctx st i w h2.1, ihr ctx st i w h2.2]
  | ternary c t f ihc iht ihf =>
    intro ctx st i w h
    cases htr : truthy (evaluateExpression c ctx st).1 with
    | true =>
      rw [ternary_true c t f ctx st htr] at h
      have h2 : i ∉ (evaluateExpression c ctx st).2 ++ (evaluateExpression t ctx st).2 := h
      simp only [List.mem_append] at h2
      push_neg at h2
      have htrU : truthy (evaluateExpression c ctx (st.update i w)).1 = true := by
        rw [ihc ctx st i w h2.1]
        exact htr
      rw [ternary_true c t f ctx (st.update i w) htrU, ternary_true c t f ctx st htr,
        ihc ctx st i w h2.1, iht ctx st i w h2.2]
    | false =>
      rw [ternary_false c t f ctx st htr] at h
      have h2 : i ∉ (evaluateExpression c ctx st).2 ++ (evaluateExpression f ctx st).2 := h
      simp only [List.mem_append] at h2
      push_neg at h2
      have htrU : truthy (evaluateExpression c ctx (st.update i w)).1 = false := by
        rw [ihc ctx st i w h2.1]
        exact htr
      rw [ternary_false c t f ctx (st.update i w) htrU, ternary_false c t f ctx st htr,
        ihc ctx st i w h2.1, ihf ctx st i w h2.2]

/-- A bound template reads the store only at its tracked dependencies. -/
theorem bind_stable :
    ∀ (segs : List Seg) (ctx : CtxVal) (st : Store) (i : ℕ) (w : CtxVal),
      i ∉ (bindTemplate segs ctx st).2.1 →
      bindTemplate segs ctx (st.update i w) = bindTemplate segs ctx st := by
  intro segs
  induction segs with
  | nil => intro ctx st i w _; rfl
  | cons sg rest ih =>
    intro ctx st i w h
    cases sg with
    | litSeg t =>
      have hl : ∀ st' : Store, bindTemplate (.litSeg t :: rest) ctx st' =
          (t ++ (bindTemplate rest ctx st').1, (bindTemplate rest ctx st').2) :=
        fun _ => rfl
      rw [hl] at h
      have h2 : i ∉ (bindTemplate rest ctx st).2.1 := h
      rw [hl, hl, ih ctx st i w h2]
    | exprSeg e =>
      have he : ∀ st' : Store, bindTemplate (.exprSeg e :: rest) ctx st' =
          ((evaluateExpression e ctx st').1.toTemplateStr ++ (bindTemplate rest ctx st').1,
            (evaluateExpression e ctx st').2 ++ (bindTemplate rest ctx st').2.1,
            (bindTemplate rest ctx st').2.2 + 1) := fun _ => rfl
      rw [he] at h
      have h2 : i ∉ (evaluateExpression e ctx st).2 ++ (bindTemplate rest ctx st).2.1 := h
      simp only [List.mem_append] at h2
      push_neg at h2
      rw [he, he, eval_stable e ctx st i w h2.1, ih ctx st i w h2.2]

/-- C7: a Ternary coerces its condition by standard truthiness (0, "",
null, undefined, false are falsy) and evaluates only the selected branch;
the dependency set of the evaluation is the condition's plus the taken
branch's only, so a signal read only by the untaken branch is not a
dependency and setting it cannot change the computed result (no
recomputation is triggered). -/
theorem claim7_ternary_deps :
    (truthy (.num (.fin (.ofNat 0))) = false ∧ truthy (.str "") = false ∧
      truthy .null = false ∧ truthy .undef = false ∧ truthy (.boolv false) = false) ∧
    (∀ (c t f : Expr) (ctx : CtxVal) (st : Store),
      (truthy (evaluateExpression c ctx st).1 = true →
        evaluateExpression (.ternary c t f) ctx st =
          ((evaluateExpression t ctx st).1,
            (evaluateExpression c ctx st).2 ++ (evaluateExpression t ctx st).2)) ∧
      (truthy (evaluateExpression c ctx st).1 = false →
        evaluateExpression (.ternary c t f) ctx st =
          ((evaluateExpression f ctx st).1,
            (evaluateExpression c ctx st).2 ++ (evaluateExpression f ctx st).2))) ∧
    (∀ (segs : List Seg) (ctx : CtxVal) (st : Store) (i : ℕ) (w : CtxVal),
      i ∉ (bindTemplate segs ctx st).2.1 →
      bindTemplate segs ctx (st.update i w) = bindTemplate segs ctx st) ∧
    (∀ (c t f : Expr) (ctx : CtxVal) (st : Store) (i : ℕ) (w : CtxVal),
      truthy (evaluateExpression c ctx st).1 = true →
      i ∉ (evaluateExpression c ctx st).2 →
      i ∉ (evaluateExpression t ctx st).2 →
      i ∉ (evaluateExpression (.ternary c t f) ctx st).2 ∧
        evaluateExpression (.ternary c t f) ctx (st.update i w) =
          evaluateExpression (.ternary c t f) ctx st) := by
  refine ⟨⟨rfl, rfl, rfl, rfl, rfl⟩,
    fun c t f ctx st => ⟨ternary_true c t f ctx st, ternary_false c t f ctx st⟩,
    bind_stable, ?_⟩
  intro c t f ctx st i w htr hic hit
  have hnotin : i ∉ (evaluateExpression (.ternary c t f) ctx st).2 := by
    rw [ternary_true c t f ctx st htr]
    have : i ∉ (evaluateExpression c ctx st).2 ++ (evaluateExpression t ctx st).2 := by
      simp only [List.mem_append]
      push_neg
      exact ⟨hic, hit⟩
    exact this
  exact ⟨hnotin, eval_stable _ ctx st i w hnotin⟩

/-- C7 witness: the untaken-branch signal of a concrete ternary is not a
dependency and setting it leaves the evaluation unchanged. -/
theorem claim7_ternary_deps_witness :
    (2 : ℕ) ∉ (evaluateExpression ternSample ctxTern storeTern).2 ∧
    evaluateExpression ternSample ctxTern (storeTern.update 2 (.val (.str "C"))) =
      evaluateExpression ternSample ctxTern storeTern :=
  claim7_ternary_deps.2.2.2 (.path [.field "$cond"]) (.path [.field "$x"])
    (.path [.field "$y"]) ctxTern storeTern 2 (.val (.str "C"))
    (by decide) (by decide) (by decide)

/-- One propagation step does not re-run a detached registration of the
scope, and leaves every registration of the scope detached. -/
theorem stepSet_scope_inactive (scope i : ℕ) :
    ∀ l : List EffectReg, (∀ e ∈ l, e.owner = scope → e.active = false) →
      ((l.map (fun e => if e.active = true ∧ i ∈ e.deps then { e with runs := e.runs + 1 } else e)).filter
          (fun e => e.owner == scope)).map (fun e => e.runs) =
        (l.filter (fun e => e.owner == scope)).map (fun e => e.runs) ∧
      (∀ e ∈ l.map (fun e => if e.active = true ∧ i ∈ e.deps then { e with runs := e.runs + 1 } else e),
        e.owner = scope → e.active = false) := by
  intro l
  induction l with
  | nil => intro _; exact ⟨rfl, by simp⟩
  | cons e l ih =>
    intro h
    have he := h e (List.mem_cons_self e l)
    have hl := fun x hx => h x (List.mem_cons_of_mem e hx)
    obtain ⟨ih1, ih2⟩ := ih hl
    have howner : (if e.active = true ∧ i ∈ e.deps then { e with runs := e.runs + 1 } else e).owner
        = e.owner := by split <;> rfl
    by_cases ho : e.owner = scope
    · have ha : e.active = false := he ho
      have hg : (if e.active = true ∧ i ∈ e.deps then { e with runs := e.runs + 1 } else e) = e := by
        rw [ha]
        simp
      constructor
      · simp only [List.map_cons, List.filter_cons, hg]
        cases hp : (e.owner == scope) <;> simp [hp, ih1]
      · intro x hx
        simp only [List.map_cons, hg] at hx
        rcases List.mem_cons.mp hx with hx1 | hx2
        · subst hx1; exact he
        · exact ih2 x hx2
    · have hp : (e.owner == scope) = false := by
        simp [ho]
      have hpg : ((if e.active = true ∧ i ∈ e.deps then { e with runs := e.runs + 1 } else e).owner
          == scope) = false := by
        rw [howner]
        exact hp
      constructor
      · simp only [List.map_cons, List.filter_cons, hp, hpg]
        simpa using ih1
      · intro x hx
        simp only [List.map_cons] at hx
        rcases List.mem_cons.mp hx with hx1 | hx2
        · subst hx1
          intro hxo
          rw [howner] at hxo
          exact absurd hxo ho
        · exact ih2 x hx2

/-- Once every registration of a scope is detached, no event trace changes
its run-counts. -/
theorem runs_inactive_invariant :
    ∀ (evs : List ℕ) (scope : ℕ) (s : WatcherState),
      (∀ e ∈ s.effects, e.owner = scope → e.active = false) →
      scopeRuns scope (runSets evs s) = scopeRuns scope s := by
  intro evs
  induction evs with
  | nil => intro scope s _; rfl
  | cons i evs ih =>
    intro scope s h
    have hstep := stepSet_scope_inactive scope i s.effects h
    have hr : runSets (i :: evs) s = runSets evs (stepSet i s) := rfl
    rw [hr, ih scope (stepSet i s) hstep.2]
    exact hstep.1

/-- Disposal detaches every registration owned by the scope. -/
theorem disposeScope_inactive (scope : ℕ) (s : WatcherState) :
    ∀ e ∈ (disposeScope scope s).effects, e.owner = scope → e.active = false := by
  intro e he
  simp only [disposeScope, List.mem_map] at he
  obtain ⟨e0, _, rfl⟩ := he
  intro ho
  by_cases h0 : e0.owner = scope
  · rw [if_pos h0]
  · rw [if_neg h0] at ho
    exact absurd ho h0

/-- C8: disposing a watcher scope synchronously detaches every registration
the scope owns, and no effect or Computed created under it ever re-runs in
response to any subsequent sequence of Signal changes — the run-counts of
the scope's registrations stay unchanged over every event trace. -/
theorem claim8_dispose_detaches (scope : ℕ) (s : WatcherState) (evs : List ℕ) :
    (∀ e ∈ (disposeScope scope s).effects, e.owner = scope → e.active = false) ∧
    scopeRuns scope (runSets evs (disposeScope scope s)) =
      scopeRuns scope (disposeScope scope s) :=
  ⟨disposeScope_inactive scope s,
    runs_inactive_invariant evs scope (disposeScope scope s) (disposeScope_inactive scope s)⟩

/-- C8 witness: a concrete disposed scope stays at its run-counts across a
concrete event trace touching its tracked signal. -/
theorem claim8_dispose_detaches_witness :
    scopeRuns 0 (runSets [1, 1, 2] (disposeScope 0 sampleWatcher)) =
      scopeRuns 0 (disposeScope 0 sampleWatcher) :=
  (claim8_dispose_detaches 0 sampleWatcher [1, 1, 2]).2

/-- C9: `resolveConfig` returns `{value: null, isValid: false}` exactly when
some property's resolution fails (a failed `processProperty`, a falsy
namespace result, or an invalid nested object) or its `.get()`-unwrapped
resolved value is null or undefined; an entry resolving to an explicit
falsy value such as `''`, `false` or `0` is preserved in the returned
record and keeps the result valid. -/
theorem claim9_resolveConfig_invalid_iff
    (pp : String → CVal → Option RVal) (pn : String → CVal → RVal)
    (config : List (String × CVal)) :
    (resolveConfig pp pn config = none ↔
      ∃ kv ∈ config, entryFails pp pn kv.1 kv.2 = true) ∧
    (∀ (k : String) (v : CVal) (r : RVal),
      resolveConfigValue pp pn k v = some r → r.unwrapGet.isNullish = false →
      resolveConfig pp pn ((k, v) :: config) =
        (resolveConfig pp pn config).map (fun rest => (k, r.unwrapGet) :: rest)) := by
  constructor
  · induction config with
    | nil => simp [resolveConfig]
    | cons kv rest ih =>
      obtain ⟨k, v⟩ := kv
      cases hv : resolveConfigValue pp pn k v with
      | none =>
        simp only [resolveConfig, hv]
        constructor
        · intro _
          exact ⟨(k, v), List.mem_cons_self _ _, by simp [entryFails, hv]⟩
        · intro _
          trivial
      | some r0 =>
        cases hn : r0.unwrapGet.isNullish with
        | true =>
          simp only [resolveConfig, hv, hn]
          constructor
          · intro _
            exact ⟨(k, v), List.mem_cons_self _ _, by simp [entryFails, hv, hn]⟩
          · intro _
            simp
        | false =>
          have hfail : entryFails pp pn k v = false := by simp [entryFails, hv, hn]
          simp only [resolveConfig, hv, hn]
          rw [if_neg (by simp)]
          constructor
          · intro h
            cases hr : resolveConfig pp pn rest with
            | none =>
              obtain ⟨kv1, hm, hf⟩ := ih.mp hr
              exact ⟨kv1, List.mem_cons_of_mem _ hm, hf⟩
            | some rest1 =>
              rw [hr] at h
              simp at h
          · rintro ⟨kv1, hm, hf⟩
            rcases List.mem_cons.mp hm with h1 | h2
            · exfalso
              rw [h1] at hf
              simp only at hf
              rw [hfail] at hf
              exact absurd hf (by simp)
            · rw [ih.mpr ⟨kv1, h2, hf⟩]
  · intro k v r hv hn
    simp only [resolveConfig, hv]
    rw [if_neg (by simp [hn])]
    cases hr : resolveConfig pp pn config with
    | none => rfl
    | some rest1 => rfl

/-- C9 witness: an explicit `false` property value stays valid and is kept
in the resolved record. -/
theorem claim9_resolveConfig_invalid_iff_witness :
    resolveConfigValue ppSample pnSample "flag" (.prim (.boolv false)) = some (.boolv false) ∧
    (RVal.boolv false).unwrapGet.isNullish = false ∧
    resolveConfig ppSample pnSample [("flag", .prim (.boolv false))] =
      some [("flag", .boolv false)] := by
  refine ⟨rfl, rfl, ?_⟩
  have h := (claim9_resolveConfig_invalid_iff ppSample pnSample []).2 "flag"
    (.prim (.boolv false)) (.boolv false) rfl rfl
  rw [h]
  rfl

/-- Filtering with a stronger predicate keeps at most as many elements. -/
theorem filter_length_mono {α : Type} (P Q : α → Bool)
    (h : ∀ x, Q x = true → P x = true) :
    ∀ l : List α, (l.filter Q).length ≤ (l.filter P).length := by
  intro l
  induction l with
  | nil => exact Nat.le_refl 0
  | cons a l ih =>
    cases hq : Q a with
    | true =>
      have hp := h a hq
      simp [List.filter_cons, hq, hp]
      omega
    | false =>
      cases hp : P a with
      | true =>
        simp [List.filter_cons, hq, hp]
        omega
      | false =>
        simp [List.filter_cons, hq, hp]
        omega

/-- Filtering with a strictly stronger predicate that newly excludes a
member of the list keeps strictly fewer elements. -/
theorem filter_length_lt {α : Type} (P Q : α → Bool)
    (hmono : ∀ x, Q x = true → P x = true) (a : α) (hQa : Q a = false) (hPa : P a = true) :
    ∀ l : List α, a ∈ l → (l.filter Q).length < (l.filter P).length := by
  intro l
  induction l with
  | nil => intro h; cases h
  | cons b l ih =>
    intro hm
    rcases List.mem_cons.mp hm with h1 | h2
    · subst h1
      have hM := filter_length_mono P Q hmono l
      simp [List.filter_cons, hQa, hPa]
      omega
    · have hI := ih h2
      cases hq : Q b with
      | true =>
        have hp := hmono b hq
        simp [List.filter_cons, hq, hp]
        omega
      | false =>
        cases hp : P b with
        | true =>
          simp [List.filter_cons, hq, hp]
          omega
        | false =>
          simp [List.filter_cons, hq, hp]
          omega

/-- A successful lookup's key is among the map's keys. -/
theorem lookup_some_mem_keys {β : Type} (m : List (String × β)) (name : String) (v : β)
    (h : m.lookup name = some v) : name ∈ m.map Prod.fst := by
  induction m with
  | nil => cases h
  | cons kv rest ih =>
    obtain ⟨k, w⟩ := kv
    simp only [List.lookup] at h
    cases hk : (name == k) with
    | true =>
      have hek : name = k := by simpa using hk
      simp [hek]
    | false =>
      rw [hk] at h
      simp only [List.map_cons, List.mem_cons]
      exact Or.inr (ih h)

/-- Entering the resolution of a registered, not-yet-resolving name
strictly shrinks the set of names still available for recursion — the
termination measure of the circular-dependency guard. -/
theorem keysLeft_cons_lt (m : List (String × String)) (resolving : List String)
    (name : String) (hmem : name ∈ m.map Prod.fst) (hnot : name ∉ resolving) :
    keysLeft m (name :: resolving) < keysLeft m resolving := by
  apply filter_length_lt (fun k => ! resolving.contains k)
    (fun k => ! (name :: resolving).contains k) ?_ name ?_ ?_ (m.map Prod.fst) hmem
  · intro x hx
    simp only [List.contains_cons, Bool.not_or, Bool.and_eq_true] at hx
    exact hx.2
  · simp [List.contains_cons]
  · simp only [Bool.not_eq_true']
    rw [← Bool.not_eq_true]
    intro hc
    exact hnot (by simpa using hc)

/-- Unfolding of `resolveCMFuel` on a missing name. -/
theorem resolveCMFuel_none (f : ℕ) (m : List (String × String)) (resolving : List String)
    (name : String) (hl : m.lookup name = none) :
    resolveCMFuel (f + 1) m resolving name = none := by
  simp only [resolveCMFuel, hl]

/-- Unfolding of `resolveCMFuel` on a name already being resolved (the
circular-dependency guard). -/
theorem resolveCMFuel_circ (f : ℕ) (m : List (String × String)) (resolving : List String)
    (name value : String) (hl : m.lookup name = some value) (hr : name ∈ resolving) :
    resolveCMFuel (f + 1) m resolving name = none := by
  simp only [resolveCMFuel, hl]
  rw [if_pos hr]

/-- Unfolding of `resolveCMFuel` on a registered, not-yet-resolving name. -/
theorem resolveCMFuel_go (f : ℕ) (m : List (String × String)) (resolving : List String)
    (name value : String) (hl : m.lookup name = some value) (hr : name ∉ resolving) :
    resolveCMFuel (f + 1) m resolving name =
      some (String.mk (((scanRefs value.data).map (fun item =>
        match item with
        | .inl cs => cs
        | .inr nm =>
          match resolveCMFuel f m (name :: resolving) nm with
          | some r => if r = "" then ("not all").data else '(' :: (r.data ++ [')'])
          | none => ("not all").data)).flatten)) := by
  simp only [resolveCMFuel, hl]
  rw [if_neg hr]

/-- The fuelled custom-media resolver is independent of the fuel once it
exceeds the number of registered names outside the resolving set: the
guarded recursion always terminates within that depth. -/
theorem resolveCMFuel_stable :
    ∀ (f g : ℕ) (m : List (String × String)) (resolving : List String) (name : String),
      keysLeft m resolving < f → keysLeft m resolving < g →
      resolveCMFuel f m resolving name = resolveCMFuel g m resolving name := by
  intro f
  induction f with
  | zero => intro g m resolving name hf _; exact absurd hf (Nat.not_lt_zero _)
  | succ f1 ih =>
    intro g m resolving name hf hg
    cases g with
    | zero => exact absurd hg (Nat.not_lt_zero _)
    | succ g1 =>
      cases hl : m.lookup name with
      | none => rw [resolveCMFuel_none f1 m resolving name hl,
          resolveCMFuel_none g1 m resolving name hl]
      | some value =>
        by_cases hr : name ∈ resolving
        · rw [resolveCMFuel_circ f1 m resolving name value hl hr,
            resolveCMFuel_circ g1 m resolving name value hl hr]
        · rw [resolveCMFuel_go f1 m resolving name value hl hr,
            resolveCMFuel_go g1 m resolving name value hl hr]
          have hmaps : (scanRefs value.data).map (fun item =>
              match item with
              | .inl cs => cs
              | .inr nm =>
                match resolveCMFuel f1 m (name :: resolving) nm with
                | some r => if r = "" then ("not all").data else '(' :: (r.data ++ [')'])
                | none => ("not all").data) =
            (scanRefs value.data).map (fun item =>
              match item with
              | .inl cs => cs
              | .inr nm =>
                match resolveCMFuel g1 m (name :: resolving) nm with
                | some r => if r = "" then ("not all").data else '(' :: (r.data ++ [')'])
                | none => ("not all").data) := by
            apply List.map_congr_left
            intro item _
            cases item with
            | inl cs => rfl
            | inr nm =>
              have hlt : keysLeft m (name :: resolving) < keysLeft m resolving :=
                keysLeft_cons_lt m resolving name
                  (lookup_some_mem_keys m name value hl) hr
              dsimp only
              rw [ih g1 m (name :: resolving) nm (by omega) (by omega)]
          rw [hmaps]

/-- Flattening singleton chunks recovers the original list. -/
theorem flatten_singletons {α : Type} : ∀ l : List α, (l.map (fun a => [a])).flatten = l := by
  intro l
  induction l with
  | nil => rfl
  | cons a l ih => simp [ih]

/-- A custom-media value whose scan finds no nested reference (every
character is a verbatim chunk) resolves to itself, when registered and not
already being resolved. -/
theorem resolveCustomMedia_plain (m : List (String × String)) (resolving : List String)
    (name v : String) (hl : m.lookup name = some v) (hr : name ∉ resolving)
    (hs : scanRefs v.data = v.data.map (fun c => Sum.inl [c])) :
    resolveCustomMedia m resolving name = some v := by
  unfold resolveCustomMedia
  rw [resolveCMFuel_go (keysLeft m resolving) m resolving name v hl hr, hs, List.map_map]
  have hcomp : v.data.map ((fun item =>
      match item with
      | Sum.inl cs => cs
      | Sum.inr nm =>
        match resolveCMFuel (keysLeft m resolving) m (name :: resolving) nm with
        | some r => if r = "" then ("not all").data else '(' :: (r.data ++ [')'])
        | none => ("not all").data) ∘ (fun c => Sum.inl [c])) =
      v.data.map (fun c => [c]) :=
    List.map_congr_left (fun c _ => rfl)
  rw [hcomp, flatten_singletons]

/-- Top-level replacement of a query that scans to a single reference. -/
theorem resolveMediaQuery_single (m : List (String × String)) (name q : String)
    (hscan : scanRefs q.data = [Sum.inr name]) :
    resolveMediaQuery m q = String.mk (match resolveCustomMedia m [] name with
      | none => ("not all").data
      | some r =>
        if r = "true" then ("all").data
        else if r = "false" then ("not all").data
        else '(' :: (r.data ++ [')'])) := by
  unfold resolveMediaQuery
  rw [hscan]
  simp

/-- C10 counterexample: in the circular chain `--a → (--a)`, the top-level
reference `(--a)` is NOT replaced by the bare text "not all": the guard
fires one level down, and the outer reference receives that replacement
re-wrapped in parentheses, rendering "(not all)". -/
theorem claim10_counterexample :
    resolveMediaQuery [("--a", "(--a)")] "(--a)" = "(not all)" ∧
    ("(not all)" : String) ≠ "not all" := by
  exact ⟨by decide, by decide⟩

/-- C10 (amended): `resolveMediaQuery` terminates on every input — the
fuelled model is independent of any fuel above the number of registered
custom-media names, the bound enforced by the resolving-set guard.  An
undefined `(--name)` reference is replaced by "not all"; a name
re-encountered while its own definition is being resolved resolves to
null (and is replaced by "not all" at that point, outer references
re-wrapping the result); a definition with value "true" resolves to "all"
and "false" to "not all"; any other resolved definition is re-wrapped in
parentheses. -/
theorem claim10_custom_media_amended :
    (∀ (m : List (String × String)) (resolving : List String) (name : String) (f : ℕ),
      keysLeft m resolving < f →
      resolveCMFuel f m resolving name = resolveCustomMedia m resolving name) ∧
    (∀ (m : List (String × String)) (name q : String),
      m.lookup name = none → scanRefs q.data = [Sum.inr name] →
      resolveMediaQuery m q = "not all") ∧
    (∀ (m : List (String × String)) (resolving : List String) (name : String),
      name ∈ resolving → resolveCustomMedia m resolving name = none) ∧
    (∀ (m : List (String × String)) (name q : String),
      m.lookup name = some "true" → scanRefs q.data = [Sum.inr name] →
      resolveMediaQuery m q = "all") ∧
    (∀ (m : List (String × String)) (name q : String),
      m.lookup name = some "false" → scanRefs q.data = [Sum.inr name] →
      resolveMediaQuery m q = "not all") ∧
    (∀ (m : List (String × String)) (name q v : String),
      m.lookup name = some v → scanRefs v.data = v.data.map (fun c => Sum.inl [c]) →
      ¬ v = "true" → ¬ v = "false" → scanRefs q.data = [Sum.inr name] →
      resolveMediaQuery m q = "(" ++ v ++ ")") := by
  refine ⟨?_, ?_, ?_, ?_, ?_, ?_⟩
  · intro m resolving name f hf
    exact resolveCMFuel_stable f (keysLeft m resolving + 1) m resolving name hf
      (Nat.lt_succ_self _)
  · intro m name q hl hscan
    have hval : resolveCustomMedia m [] name = none := by
      unfold resolveCustomMedia
      exact resolveCMFuel_none (keysLeft m []) m [] name hl
    rw [resolveMediaQuery_single m name q hscan, hval]
  · intro m resolving name hr
    unfold resolveCustomMedia
    cases hl : m.lookup name with
    | none => exact resolveCMFuel_none (keysLeft m resolving) m resolving name hl
    | some value => exact resolveCMFuel_circ (keysLeft m resolving) m resolving name value hl hr
  · intro m name q hl hscan
    have hval : resolveCustomMedia m [] name = some "true" :=
      resolveCustomMedia_plain m [] name "true" hl (by simp) (by decide)
    rw [resolveMediaQuery_single m name q hscan, hval]
    rfl
  · intro m name q hl hscan
    have hval : resolveCustomMedia m [] name = some "false" :=
      resolveCustomMedia_plain m [] name "false" hl (by simp) (by decide)
    rw [resolveMediaQuery_single m name q hscan, hval]
    rfl
  · intro m name q v hl hs ht hf hscan
    have hval : resolveCustomMedia m [] name = some v :=
      resolveCustomMedia_plain m [] name v hl (by simp) hs
    rw [resolveMediaQuery_single m name q hscan, hval]
    dsimp only
    rw [if_neg ht, if_neg hf]
    have hdata : ("(" ++ v ++ ")" : String).data = '(' :: (v.data ++ [')']) := by
      simp [String.data_append]
    rw [← hdata]

/-- C10 witness: the amended behaviours at concrete inputs — an undefined
reference, a "true" definition and a plain definition. -/
theorem claim10_custom_media_amended_witness :
    resolveMediaQuery [] "(--x)" = "not all" ∧
    resolveMediaQuery [("--t", "true")] "(--t)" = "all" ∧
    resolveMediaQuery [("--n", "(max-width: 30em)")] "(--n)" = "((max-width: 30em))" :=
  ⟨claim10_custom_media_amended.2.1 [] "--x" "(--x)" rfl rfl,
   claim10_custom_media_amended.2.2.2.1 [("--t", "true")] "--t" "(--t)" rfl rfl,
   claim10_custom_media_amended.2.2.2.2.2 [("--n", "(max-width: 30em)")] "--n" "(--n)"
     "(max-width: 30em)" rfl (by decide) (by decide) (by decide) rfl⟩

end DDOM
